import Mathlib

/-!
Verification of the ingestion-and-evaluation pipeline of the
security-questionnaire responder.

This file gives a shallow embedding in Lean 4 of the parts of
`src/security_questionnaire_responder.py` that the frozen claims are about:

  - `_normalize_compliance_statement` (answer normalization, C1/C10);
  - `generate_with_retry` (transient-error retry wrapper, C3);
  - `_worker_generate` / `process_batch` and the two-pass escalation
    protocol (C2/C9);
  - `_upload_single_file` (upload-cache hit/eviction logic, C5);
  - `crawl_website` / `fetch_website_content` (robots handling, frontier
    invariant, page budget, C6/C7/C8);
  - the result-writer write-verification fallback (C4); the read-back and
    range-fallback code is not present in the sources (only the
    `VERIFY_WRITES` flag is declared), so that component is modelled from
    the spec, together with the genuine `_column_index_to_letter` helper.

External collaborators (the generative-model call, the remote file store,
the spreadsheet client, HTTP fetching) appear as explicit function
parameters, exactly at the boundaries where the Python code calls into its
SDKs.  Machine-level effects (wall-clock sleeping, logging) are dropped or
recorded as counts; everything else follows the Python control flow
statement by statement.
-/

namespace SQR

/-! ## String primitives

Python string operations used by the pipeline, modelled on the character
list underlying a Lean `String`.  `strLower` models `str.lower` (ASCII
view of it, which is all the pipeline's indicator constants need),
`strTrim` models `str.strip()`, `strContains hay needle` models
`needle in hay`, and `strTake` models slicing `s[:n]`.  `String.trim` and
`String.map` from core are avoided because they do not reduce inside the
kernel. -/

def strLower (s : String) : String := ⟨s.data.map Char.toLower⟩

def strTrim (s : String) : String :=
  ⟨(((s.data.dropWhile Char.isWhitespace).reverse).dropWhile Char.isWhitespace).reverse⟩

def strContains (hay needle : String) : Bool := decide (needle.data <:+: hay.data)

def strTake (s : String) (n : ℕ) : String := ⟨s.data.take n⟩

theorem strLower_eq_empty_iff (s : String) : strLower s = "" ↔ s = "" := by
  cases s with
  | mk data =>
    simp [strLower, String.ext_iff, List.map_eq_nil_iff]

theorem strContains_iff (hay needle : String) :
    strContains hay needle = true ↔ needle.data <:+: hay.data := by
  simp [strContains]

/-! ## `_normalize_compliance_statement` (src/security_questionnaire_responder.py:924-946)

Normalizes a raw model answer to either a valid statement or the sentinel
`not_found`. -/

def not_found_indicators : List String :=
  ["not_found",
   "insufficient information",
   "insufficient evidence",
   "cannot be found",
   "not found in the provided documents"]

def _normalize_compliance_statement (compliance_statement : String)
    (allowed_doc_names : List String) : String :=
  if compliance_statement = "" then "not_found"
  else if strLower (strTrim compliance_statement) = "" ∨
      not_found_indicators.any
        (fun ind => strContains (strLower (strTrim compliance_statement)) ind) then
    "not_found"
  else if allowed_doc_names ≠ [] then
    if ¬ allowed_doc_names.any
        (fun name =>
          (name != "") && strContains (strLower compliance_statement) (strLower name)) then
      "not_found"
    else compliance_statement
  else compliance_statement

/-- The raw answer, once stripped and lowercased, contains one of the
insufficient-information indicator phrases checked by the code. -/
def hasNotFoundIndicator (cs : String) : Prop :=
  ∃ ind ∈ not_found_indicators, ind.data <:+: (strLower (strTrim cs)).data

instance (cs : String) : Decidable (hasNotFoundIndicator cs) := by
  unfold hasNotFoundIndicator; exact List.decidableBEx _ _

/-- The answer textually contains (case-insensitively) at least one
non-empty identifier from the allowed-citation list. -/
def citesAllowedSource (cs : String) (allowed : List String) : Prop :=
  ∃ name ∈ allowed, name ≠ "" ∧ (strLower name).data <:+: (strLower cs).data

instance (cs : String) (allowed : List String) :
    Decidable (citesAllowedSource cs allowed) := by
  unfold citesAllowedSource; exact List.decidableBEx _ _

theorem hasNotFoundIndicator_iff (cs : String) :
    (not_found_indicators.any
      (fun ind => strContains (strLower (strTrim cs)) ind)) = true ↔
    hasNotFoundIndicator cs := by
  simp [List.any_eq_true, strContains_iff, hasNotFoundIndicator]

theorem citesAllowedSource_iff (cs : String) (allowed : List String) :
    (allowed.any
      (fun name => (name != "") && strContains (strLower cs) (strLower name))) = true ↔
    citesAllowedSource cs allowed := by
  simp [List.any_eq_true, strContains_iff, citesAllowedSource, Bool.and_eq_true,
    bne_iff_ne]

/-- C1 (counterexample). The claim quantifies over every non-empty
allowed-citation list and asserts the answer is returned unchanged as soon
as it textually contains at least one identifier from that list.  With
the non-empty list `[""]` the answer `"yes"` is non-empty, contains no
insufficient-information indicator, and trivially contains the identifier
`""`, yet the code returns `not_found`: the code's membership test
`name and name.lower() in lower_stmt` skips empty identifiers. -/
theorem normalize_claim_counterexample :
    _normalize_compliance_statement "yes" [""] = "not_found" ∧
    ("yes" : String) ≠ "" ∧
    ¬ hasNotFoundIndicator "yes" ∧
    (∃ name ∈ ([""] : List String), (strLower name).data <:+: (strLower "yes").data) := by
  decide

/-- C1 (amended). For every raw answer and every non-empty allowed list,
`_normalize_compliance_statement` returns exactly `not_found` when the
answer is blank (empty after stripping whitespace), contains an
insufficient/not-found indicator phrase, or does not textually contain
(case-insensitively) at least one non-empty identifier from the allowed
list; otherwise it returns the answer unchanged. -/
theorem normalize_not_found_characterization (cs : String) (allowed : List String)
    (hne : allowed ≠ []) :
    _normalize_compliance_statement cs allowed =
      if strTrim cs = "" ∨ hasNotFoundIndicator cs ∨ ¬ citesAllowedSource cs allowed
      then "not_found" else cs := by
  unfold _normalize_compliance_statement
  by_cases h0 : cs = ""
  · subst h0
    have htrim : strTrim "" = "" := rfl
    simp [htrim]
  · rw [if_neg h0]
    by_cases h1 : strTrim cs = ""
    · have hl : strLower (strTrim cs) = "" := by rw [h1]; rfl
      rw [if_pos (Or.inl hl), if_pos (Or.inl h1)]
    · by_cases h2 : hasNotFoundIndicator cs
      · rw [if_pos (Or.inr ((hasNotFoundIndicator_iff cs).2 h2)),
          if_pos (Or.inr (Or.inl h2))]
      · have hcond : ¬ (strLower (strTrim cs) = "" ∨
            (not_found_indicators.any
              (fun ind => strContains (strLower (strTrim cs)) ind)) = true) := by
          rintro (h | h)
          · exact h1 ((strLower_eq_empty_iff _).1 h)
          · exact h2 ((hasNotFoundIndicator_iff cs).1 h)
        rw [if_neg hcond, if_pos hne]
        by_cases h3 : citesAllowedSource cs allowed
        · rw [if_neg (not_not_intro ((citesAllowedSource_iff cs allowed).2 h3)),
            if_neg (by simp [h1, h2, h3])]
        · rw [if_pos (fun h => h3 ((citesAllowedSource_iff cs allowed).1 h)),
            if_pos (Or.inr (Or.inr h3))]

/-- C1 (witness). The characterization applied to a concrete answer that
cites the single allowed identifier `DocA`. -/
theorem normalize_not_found_characterization_witness :
    _normalize_compliance_statement "ok per DocA" ["DocA"] = "ok per DocA" :=
  (normalize_not_found_characterization "ok per DocA" ["DocA"] (by decide)).trans
    (if_neg (by decide))

/-- C10 (counterexample). A whitespace-only answer is non-empty and
contains no insufficient/not-found indicator phrase, yet with an empty
allowed list the code returns `not_found` instead of returning it
verbatim: the `not normalized_reply` test fires once the answer is
stripped. -/
theorem normalize_blank_forced_not_found :
    _normalize_compliance_statement " " [] = "not_found" ∧
    (" " : String) ≠ "" ∧
    ¬ hasNotFoundIndicator " " := by
  decide

/-- C10 (amended). When the allowed-citation list is empty the
citation-containment check is skipped entirely: any answer that is
non-blank (non-empty after stripping whitespace) and contains no
insufficient/not-found indicator phrase is returned verbatim, never forced
to `not_found` for lack of a citation. -/
theorem normalize_empty_allowed_skips_citation_check (cs : String)
    (h1 : strTrim cs ≠ "") (h2 : ¬ hasNotFoundIndicator cs) :
    _normalize_compliance_statement cs [] = cs := by
  have h0 : cs ≠ "" := by
    intro h; exact h1 (by rw [h]; rfl)
  unfold _normalize_compliance_statement
  rw [if_neg h0, if_neg, if_neg (by simp)]
  rintro (h | h)
  · exact h1 ((strLower_eq_empty_iff _).1 h)
  · exact h2 ((hasNotFoundIndicator_iff cs).1 h)

/-- C10 (witness). A concrete non-blank, indicator-free answer with an
empty allowed list is returned verbatim. -/
theorem normalize_empty_allowed_skips_citation_check_witness :
    _normalize_compliance_statement "yes" [] = "yes" :=
  normalize_empty_allowed_skips_citation_check "yes" (by decide) (by decide)

/-! ## `generate_with_retry` (src/security_questionnaire_responder.py:904-922)

The retry wrapper loops on the collaborator call, starting at attempt 1;
on a transient exception it re-raises once `attempt >= max_attempts`,
otherwise it back-off-sleeps and increments the attempt counter.  The
collaborator is modelled as a function from the attempt number to its
outcome.  The embedding returns, along with the Python function's
result-or-exception, the number of invocations of the underlying call and
the number of `_backoff_sleep` calls performed (the wall-clock delay
itself is a real-time effect and is not modelled). -/

inductive CallResult (α : Type) where
  | ok (value : α)
  | transient (msg : String)
deriving DecidableEq

def retry_from {α : Type} (call : ℕ → CallResult α) (max_attempts attempt : ℕ) :
    CallResult α × ℕ × ℕ :=
  match call attempt with
  | .ok v => (.ok v, 1, 0)
  | .transient e =>
    if h : attempt ≥ max_attempts then (.transient e, 1, 0)
    else
      ((retry_from call max_attempts (attempt + 1)).1,
       (retry_from call max_attempts (attempt + 1)).2.1 + 1,
       (retry_from call max_attempts (attempt + 1)).2.2 + 1)
termination_by max_attempts - attempt
decreasing_by all_goals (simp_wf; omega)

def generate_with_retry {α : Type} (call : ℕ → CallResult α) (max_attempts : ℕ) :
    CallResult α × ℕ × ℕ :=
  retry_from call max_attempts 1

theorem retry_from_ok {α : Type} (call : ℕ → CallResult α)
    (max_attempts attempt : ℕ) (v : α) (h : call attempt = .ok v) :
    retry_from call max_attempts attempt = (.ok v, 1, 0) := by
  rw [retry_from, h]

theorem retry_from_transient_last {α : Type} (call : ℕ → CallResult α)
    (max_attempts attempt : ℕ) (e : String) (h : call attempt = .transient e)
    (hge : attempt ≥ max_attempts) :
    retry_from call max_attempts attempt = (.transient e, 1, 0) := by
  rw [retry_from, h]
  exact dif_pos hge

theorem retry_from_transient_step {α : Type} (call : ℕ → CallResult α)
    (max_attempts attempt : ℕ) (e : String) (h : call attempt = .transient e)
    (hlt : attempt < max_attempts) :
    retry_from call max_attempts attempt =
      ((retry_from call max_attempts (attempt + 1)).1,
       (retry_from call max_attempts (attempt + 1)).2.1 + 1,
       (retry_from call max_attempts (attempt + 1)).2.2 + 1) := by
  rw [retry_from, h]
  exact dif_neg (by omega)

theorem retry_from_all_transient {α : Type} (call : ℕ → CallResult α)
    (e : ℕ → String) (hc : ∀ k, call k = .transient (e k)) (max_attempts : ℕ) :
    ∀ n attempt, attempt ≤ max_attempts → max_attempts - attempt = n →
    retry_from call max_attempts attempt =
      (.transient (e max_attempts), max_attempts - attempt + 1, max_attempts - attempt) := by
  intro n
  induction n with
  | zero =>
    intro attempt hle hdiff
    have heq : attempt = max_attempts := by omega
    subst heq
    rw [retry_from_transient_last call attempt attempt (e attempt) (hc attempt)
      (le_refl attempt)]
    simp
  | succ n ih =>
    intro attempt hle hdiff
    have hlt : attempt < max_attempts := by omega
    rw [retry_from_transient_step call max_attempts attempt (e attempt) (hc attempt) hlt,
      ih (attempt + 1) (by omega) (by omega),
      show max_attempts - (attempt + 1) + 1 + 1 = max_attempts - attempt + 1 from by omega,
      show max_attempts - (attempt + 1) + 1 = max_attempts - attempt from by omega]

theorem retry_from_succeeds {α : Type} (call : ℕ → CallResult α) (v : α)
    (max_attempts k : ℕ) (hkmax : k ≤ max_attempts) (hcall : call k = .ok v) :
    ∀ n attempt, attempt ≤ k → k - attempt = n →
    (∀ j, attempt ≤ j → j < k → ∃ er, call j = .transient er) →
    retry_from call max_attempts attempt = (.ok v, k - attempt + 1, k - attempt) := by
  intro n
  induction n with
  | zero =>
    intro attempt hle hdiff _
    have heq : attempt = k := by omega
    subst heq
    rw [retry_from_ok call max_attempts attempt v hcall]
    simp
  | succ n ih =>
    intro attempt hle hdiff hbefore
    have hlt : attempt < k := by omega
    obtain ⟨er, her⟩ := hbefore attempt (le_refl attempt) hlt
    rw [retry_from_transient_step call max_attempts attempt er her (by omega),
      ih (attempt + 1) (by omega) (by omega) (fun j h1 h2 => hbefore j (by omega) h2),
      show k - (attempt + 1) + 1 + 1 = k - attempt + 1 from by omega,
      show k - (attempt + 1) + 1 = k - attempt from by omega]

/-- C3. A collaborator call that raises a transient error on every
invocation is invoked exactly `max_attempts` times, with a back-off sleep
between consecutive attempts (`max_attempts - 1` sleeps), and the error of
the last attempt is propagated; a call that first succeeds on attempt
`k ≤ max_attempts` returns that result with exactly `k` invocations (and
`k - 1` sleeps). -/
theorem generate_with_retry_spec {α : Type} (call : ℕ → CallResult α)
    (max_attempts : ℕ) (hmax : 1 ≤ max_attempts) :
    (∀ e : ℕ → String, (∀ k, call k = .transient (e k)) →
       generate_with_retry call max_attempts =
         (.transient (e max_attempts), max_attempts, max_attempts - 1)) ∧
    (∀ k v, 1 ≤ k → k ≤ max_attempts →
       (∀ j, 1 ≤ j → j < k → ∃ er, call j = .transient er) →
       call k = .ok v →
       generate_with_retry call max_attempts = (.ok v, k, k - 1)) := by
  constructor
  · intro e hc
    rw [generate_with_retry,
      retry_from_all_transient call e hc max_attempts (max_attempts - 1) 1 hmax rfl,
      show max_attempts - 1 + 1 = max_attempts from by omega]
  · intro k v hk1 hkmax hbefore hcall
    rw [generate_with_retry,
      retry_from_succeeds call v max_attempts k hkmax hcall (k - 1) 1 hk1 rfl
        (fun j h1 h2 => hbefore j h1 h2),
      show k - 1 + 1 = k from by omega]

/-- C3 (witness). With three allowed attempts, a call that always fails is
invoked three times with two sleeps and the last error propagates; a call
that fails once and then succeeds is invoked twice with one sleep. -/
theorem generate_with_retry_spec_witness :
    generate_with_retry (fun _ => (CallResult.transient "boom" : CallResult String)) 3 =
      (CallResult.transient "boom", 3, 2) ∧
    generate_with_retry
      (fun k => if k < 2 then (CallResult.transient "blip" : CallResult String)
                else CallResult.ok "v") 3 =
      (CallResult.ok "v", 2, 1) := by
  constructor
  · exact (generate_with_retry_spec _ 3 (by decide)).1 (fun _ => "boom") (fun _ => rfl)
  · refine (generate_with_retry_spec _ 3 (by decide)).2 2 "v" (by decide) (by decide) ?_ rfl
    intro j h1 h2
    have hj : j = 1 := by omega
    subst hj
    exact ⟨"blip", rfl⟩

/-! ## `_worker_generate`, `process_batch` and the two-pass protocol
(src/security_questionnaire_responder.py:1260-1373)

The generation collaborator (prompt building plus `generate_with_retry`
plus extraction of the response text) is abstracted as a function `gen`
from a requirement row `(row_idx, req_text)` and the `first_pass` flag to
the raw response text, or to the exception `generate_with_retry`
re-raises after exhausting its attempts.  The citation-repair step
`_verify_and_fix_sources` (a regex/`difflib` rewrite of the statement) is
abstracted as an arbitrary function `fix`; every theorem below holds for
all such functions.  Rows within a batch complete in nondeterministic
order in the Python code (`as_completed`); the model processes them in
submission order, and all properties proved are membership/count
properties that do not depend on that order.  The strict sequencing of the
passes (all of pass 1 completes before pass 2 starts) is structural here:
the pass-2 input list is computed from the finished pass-1 batch. -/

def needsSecondPassFlag (normalized : String) : Bool :=
  strContains (strLower normalized) "not_found" ||
  strContains (strLower normalized) "uncertain" ||
  strContains (strLower normalized) "partially" ||
  strContains (strLower normalized) "i don\x27t know" ||
  strContains (strLower normalized) "i do not know"

/-- The escalation rule of the spec: the normalized pass-1 text contains
`not_found`, `uncertain`, `partially`, or an I-don\x27t-know variant. -/
def escalationTriggered (normalized : String) : Prop :=
  "not_found".data <:+: (strLower normalized).data ∨
  "uncertain".data <:+: (strLower normalized).data ∨
  "partially".data <:+: (strLower normalized).data ∨
  "i don\x27t know".data <:+: (strLower normalized).data ∨
  "i do not know".data <:+: (strLower normalized).data

instance (s : String) : Decidable (escalationTriggered s) := by
  unfold escalationTriggered; infer_instance

theorem needsSecondPassFlag_iff (s : String) :
    needsSecondPassFlag s = true ↔ escalationTriggered s := by
  simp [needsSecondPassFlag, escalationTriggered, strContains_iff, Bool.or_eq_true,
    or_assoc]

def _worker_generate (gen : ℕ × String → Bool → CallResult String)
    (allowed_doc_names : List String) (row : ℕ × String) (first_pass : Bool) :
    CallResult (String × Bool) :=
  match gen row first_pass with
  | .transient e => .transient e
  | .ok txt =>
    .ok (_normalize_compliance_statement (strTrim txt) allowed_doc_names,
         first_pass &&
           needsSecondPassFlag
             (_normalize_compliance_statement (strTrim txt) allowed_doc_names))

/-- One iteration of the `as_completed` loop body of `process_batch`:
produces the cell write `(row_idx, value)` performed for the row, and
`some row` when the row is appended to the `needs_second_pass` list. -/
def process_row (gen : ℕ × String → Bool → CallResult String)
    (fix : String → String) (allowed_doc_names : List String)
    (is_second_pass : Bool) (row : ℕ × String) :
    (ℕ × String) × Option (ℕ × String) :=
  match _worker_generate gen allowed_doc_names row (!is_second_pass) with
  | .transient e => ((row.1, "ERROR: " ++ strTake e 200), none)
  | .ok (compliance_statement, needs_retry) =>
    ((row.1,
      if is_second_pass then fix compliance_statement ++ " [REVIEWED]"
      else fix compliance_statement),
     if needs_retry && !is_second_pass then some row else none)

def process_batch (gen : ℕ × String → Bool → CallResult String)
    (fix : String → String) (allowed_doc_names : List String)
    (rows_batch : List (ℕ × String)) (is_second_pass : Bool) :
    List (ℕ × String) × List (ℕ × String) :=
  (rows_batch.map (fun r => (process_row gen fix allowed_doc_names is_second_pass r).1),
   rows_batch.filterMap (fun r => (process_row gen fix allowed_doc_names is_second_pass r).2))

/-- The tail of `process_requirements`: pass 1 over all pending rows, then
pass 2 over exactly the rows pass 1 flagged; the returned list is the full
write trace, pass-1 writes first. -/
def process_requirements_two_pass (gen : ℕ × String → Bool → CallResult String)
    (fix : String → String) (allowed_doc_names : List String)
    (rows : List (ℕ × String)) : List (ℕ × String) :=
  (process_batch gen fix allowed_doc_names rows false).1 ++
  (process_batch gen fix allowed_doc_names
    (process_batch gen fix allowed_doc_names rows false).2 true).1

theorem _worker_generate_ok (gen : ℕ × String → Bool → CallResult String)
    (allowed_doc_names : List String) (row : ℕ × String) (first_pass : Bool)
    (txt : String) (h : gen row first_pass = .ok txt) :
    _worker_generate gen allowed_doc_names row first_pass =
      .ok (_normalize_compliance_statement (strTrim txt) allowed_doc_names,
           first_pass &&
             needsSecondPassFlag
               (_normalize_compliance_statement (strTrim txt) allowed_doc_names)) := by
  unfold _worker_generate
  rw [h]

theorem process_row_first_ok (gen : ℕ × String → Bool → CallResult String)
    (fix : String → String) (allowed_doc_names : List String) (row : ℕ × String)
    (txt : String) (h : gen row true = .ok txt) :
    process_row gen fix allowed_doc_names false row =
      ((row.1, fix (_normalize_compliance_statement (strTrim txt) allowed_doc_names)),
       if needsSecondPassFlag (_normalize_compliance_statement (strTrim txt) allowed_doc_names)
       then some row else none) := by
  unfold process_row
  rw [show _worker_generate gen allowed_doc_names row (!false) =
        .ok (_normalize_compliance_statement (strTrim txt) allowed_doc_names,
             true && needsSecondPassFlag
               (_normalize_compliance_statement (strTrim txt) allowed_doc_names)) from
      _worker_generate_ok gen allowed_doc_names row true txt h]
  simp

theorem process_row_second_ok (gen : ℕ × String → Bool → CallResult String)
    (fix : String → String) (allowed_doc_names : List String) (row : ℕ × String)
    (txt : String) (h : gen row false = .ok txt) :
    process_row gen fix allowed_doc_names true row =
      ((row.1,
        fix (_normalize_compliance_statement (strTrim txt) allowed_doc_names) ++ " [REVIEWED]"),
       none) := by
  unfold process_row
  rw [show _worker_generate gen allowed_doc_names row (!true) =
        .ok (_normalize_compliance_statement (strTrim txt) allowed_doc_names,
             false && needsSecondPassFlag
               (_normalize_compliance_statement (strTrim txt) allowed_doc_names)) from
      _worker_generate_ok gen allowed_doc_names row false txt h]
  simp

/-- C2. A requirement row whose pass-1 generation returns a raw answer
whose normalization triggers the escalation rule (its normalized text
contains `partially`, `not_found`, `uncertain`, or an I-don\x27t-know
variant) is a member of the pass-2 input list, and — provided its pass-2
generation also returns an answer rather than exhausting its retries — the
verdict written for it in pass 2 ends with the review marker
`[REVIEWED]`.  Pass 2 runs only after pass 1 has completed: by
construction, `process_requirements_two_pass` computes the pass-2 input
list from the finished pass-1 batch before processing any pass-2 row. -/
theorem two_pass_escalation (gen : ℕ × String → Bool → CallResult String)
    (fix : String → String) (allowed_doc_names : List String)
    (rows : List (ℕ × String)) (row : ℕ × String) (raw raw2 : String)
    (hmem : row ∈ rows)
    (hgen1 : gen row true = .ok raw)
    (hflag : escalationTriggered
      (_normalize_compliance_statement (strTrim raw) allowed_doc_names))
    (hgen2 : gen row false = .ok raw2) :
    row ∈ (process_batch gen fix allowed_doc_names rows false).2 ∧
    ∃ v, (row.1, v) ∈
        (process_batch gen fix allowed_doc_names
          (process_batch gen fix allowed_doc_names rows false).2 true).1 ∧
      "[REVIEWED]".data <:+ v.data := by
  have hfl : needsSecondPassFlag
      (_normalize_compliance_statement (strTrim raw) allowed_doc_names) = true :=
    (needsSecondPassFlag_iff _).2 hflag
  have hsnd : (process_row gen fix allowed_doc_names false row).2 = some row := by
    rw [process_row_first_ok gen fix allowed_doc_names row raw hgen1]
    simp [hfl]
  have hmem2 : row ∈ (process_batch gen fix allowed_doc_names rows false).2 := by
    unfold process_batch
    exact List.mem_filterMap.2 ⟨row, hmem, hsnd⟩
  refine ⟨hmem2, ?_⟩
  refine ⟨fix (_normalize_compliance_statement (strTrim raw2) allowed_doc_names)
      ++ " [REVIEWED]", ?_, ?_⟩
  · unfold process_batch
    refine List.mem_map.2 ⟨row, hmem2, ?_⟩
    rw [process_row_second_ok gen fix allowed_doc_names row raw2 hgen2]
  · refine ⟨(fix (_normalize_compliance_statement (strTrim raw2) allowed_doc_names)).data
      ++ [' '], ?_⟩
    rw [String.data_append]
    simp

/-- C2 (witness). A single row whose pass-1 answer is `partially` is
escalated, and its pass-2 verdict carries the review marker. -/
theorem two_pass_escalation_witness :
    ((2, "r") : ℕ × String) ∈
      (process_batch
        (fun _ b => if b then CallResult.ok "partially" else CallResult.ok "ok")
        id [] [(2, "r")] false).2 ∧
    ∃ v, ((2 : ℕ), v) ∈
        (process_batch
          (fun _ b => if b then CallResult.ok "partially" else CallResult.ok "ok")
          id []
          ((process_batch
            (fun _ b => if b then CallResult.ok "partially" else CallResult.ok "ok")
            id [] [(2, "r")] false).2) true).1 ∧
      "[REVIEWED]".data <:+ v.data :=
  two_pass_escalation
    (fun _ b => if b then CallResult.ok "partially" else CallResult.ok "ok")
    id [] [(2, "r")] (2, "r") "partially" "ok"
    (by decide) rfl (by decide) rfl

theorem process_row_snd_eq (gen : ℕ × String → Bool → CallResult String)
    (fix : String → String) (allowed_doc_names : List String)
    (is_second_pass : Bool) (r b : ℕ × String)
    (h : (process_row gen fix allowed_doc_names is_second_pass r).2 = some b) :
    b = r := by
  unfold process_row at h
  rcases hw : _worker_generate gen allowed_doc_names r (!is_second_pass) with ⟨stmt, needs⟩ | e
  · rw [hw] at h
    simp only at h
    split at h
    · exact (Option.some.inj h).symm
    · exact absurd h (by simp)
  · rw [hw] at h
    exact absurd h (by simp)

theorem escalations_sublist (gen : ℕ × String → Bool → CallResult String)
    (fix : String → String) (allowed_doc_names : List String)
    (rows : List (ℕ × String)) :
    (process_batch gen fix allowed_doc_names rows false).2.Sublist rows := by
  unfold process_batch
  induction rows with
  | nil => simp
  | cons a tl ih =>
    rw [List.filterMap_cons]
    rcases hopt : (process_row gen fix allowed_doc_names false a).2 with _ | b
    · exact ih.cons a
    · rw [process_row_snd_eq gen fix allowed_doc_names false a b hopt]
      exact ih.cons₂ a

/-- C9. The generation worker never flags a second-pass result for
escalation: in second-pass mode the needs-second-pass flag is always
`false`, a second-pass batch collects no escalation candidates, and —
since the pass-2 input list is a sublist of the pass-1 row list — a run
over rows with distinct row indices invokes the worker at most twice per
row index, so no row is ever processed a third time. -/
theorem second_pass_terminal (gen : ℕ × String → Bool → CallResult String)
    (fix : String → String) (allowed_doc_names : List String) :
    (∀ row res, _worker_generate gen allowed_doc_names row false = .ok res →
       res.2 = false) ∧
    (∀ rows, (process_batch gen fix allowed_doc_names rows true).2 = []) ∧
    (∀ rows r, (rows.map Prod.fst).Nodup →
       rows.countP (fun p => p.1 == r) +
         ((process_batch gen fix allowed_doc_names rows false).2).countP
           (fun p => p.1 == r) ≤ 2) := by
  refine ⟨?_, ?_, ?_⟩
  · intro row res h
    unfold _worker_generate at h
    rcases hg : gen row false with txt | e
    · rw [hg] at h
      simp only [CallResult.ok.injEq] at h
      rw [← h]
      simp
    · rw [hg] at h
      exact absurd h (by simp)
  · intro rows
    unfold process_batch
    rw [List.filterMap_eq_nil_iff]
    intro r _
    rcases hw : _worker_generate gen allowed_doc_names r (!true) with ⟨stmt, needs⟩ | e
    · unfold process_row
      rw [hw]
      simp
    · unfold process_row
      rw [hw]
  · intro rows r hnodup
    have hcount1 : rows.countP (fun p => p.1 == r) ≤ 1 := by
      have hmapeq : rows.countP (fun p => p.1 == r) = (rows.map Prod.fst).count r := by
        rw [List.count_eq_countP, List.countP_map]
        rfl
      rw [hmapeq]
      exact List.nodup_iff_count_le_one.1 hnodup r
    have hcount2 := (escalations_sublist gen fix allowed_doc_names rows).countP_le
      (fun p => p.1 == r)
    omega

/-- C9 (witness). A concrete one-row run: the second pass flags nothing,
and the row index 2 is processed at most twice. -/
theorem second_pass_terminal_witness :
    (process_batch (fun _ _ => CallResult.ok "ok") id [] [(2, "r")] true).2 = [] ∧
    [((2 : ℕ), "r")].countP (fun p => p.1 == 2) +
      ((process_batch (fun _ _ => CallResult.ok "ok") id [] [(2, "r")] false).2).countP
        (fun p => p.1 == 2) ≤ 2 :=
  ⟨(second_pass_terminal (fun _ _ => CallResult.ok "ok") id []).2.1 [(2, "r")],
   (second_pass_terminal (fun _ _ => CallResult.ok "ok") id []).2.2 [(2, "r")] 2
     (by decide)⟩

/-! ## `_upload_single_file` (src/security_questionnaire_responder.py:257-341)

The cache-lookup/eviction/upload logic of a single file.  The persisted
upload cache is a flat string-to-string mapping, modelled as an
association list with unique keys; the remote store is abstracted by
`get_file` (the `genai.get_file` lookup of a cached handle, returning the
artifact state or raising) and by `upload_file` (the outcome
`genai.upload_file` would produce if the upload is attempted).  The
pre-cache input validation (missing path, unreadable file) happens before
the modelled region and is not represented; `size_within_limit` stands
for `file_size_mb <= 20` and `mime` for `ext_to_mime.get(p.suffix)`.  The
result is the returned handle (`None` on failure), the cache after the
call, and the number of remote upload calls performed. -/

inductive FileState where
  | ACTIVE
  | PROCESSING
  | FAILED
deriving DecidableEq

inductive GetFileResult where
  | ok (st : FileState)
  | err (msg : String)
deriving DecidableEq

inductive UploadCallResult where
  | ok (handle_id : String)
  | err (msg : String)
deriving DecidableEq

def cacheLookup (cache : List (String × String)) (k : String) : Option String :=
  (cache.find? (fun e => e.1 == k)).map (fun e => e.2)

def cacheDelete (cache : List (String × String)) (k : String) :
    List (String × String) :=
  cache.filter (fun e => !(e.1 == k))

/-- The fall-through path of `_upload_single_file` after the cache check:
size ceiling, MIME lookup, then the actual upload call. -/
def uploadAfterCacheMiss (cache : List (String × String))
    (size_within_limit : Bool) (mime : Option String)
    (upload_file : UploadCallResult) :
    Option String × List (String × String) × ℕ :=
  if !size_within_limit then (none, cache, 0)
  else
    match mime with
    | none => (none, cache, 0)
    | some _ =>
      match upload_file with
      | .ok h => (some h, cache, 1)
      | .err _ => (none, cache, 1)

def _upload_single_file (upload_cache : List (String × String)) (cache_key : String)
    (get_file : String → GetFileResult) (size_within_limit : Bool)
    (mime : Option String) (upload_file : UploadCallResult) :
    Option String × List (String × String) × ℕ :=
  match cacheLookup upload_cache cache_key with
  | some cached_id =>
    if cached_id ≠ "" then
      match get_file cached_id with
      | .ok .ACTIVE => (some cached_id, upload_cache, 0)
      | .ok _ =>
        uploadAfterCacheMiss (cacheDelete upload_cache cache_key)
          size_within_limit mime upload_file
      | .err _ =>
        uploadAfterCacheMiss (cacheDelete upload_cache cache_key)
          size_within_limit mime upload_file
    else
      uploadAfterCacheMiss upload_cache size_within_limit mime upload_file
  | none => uploadAfterCacheMiss upload_cache size_within_limit mime upload_file

theorem cacheLookup_cacheDelete (cache : List (String × String)) (k : String) :
    cacheLookup (cacheDelete cache k) k = none := by
  have hfind : (cacheDelete cache k).find? (fun e => e.1 == k) = none := by
    rw [List.find?_eq_none]
    intro x hx
    have hx' : x ∈ cache.filter (fun e => !(e.1 == k)) := hx
    have hx2 := List.of_mem_filter hx'
    simpa using hx2
  simp [cacheLookup, hfind]

/-- C5 (counterexample). The claim asserts that a cached handle that is
not confirmed usable forces exactly one re-upload for every file.  For a
file over the 20 MB size ceiling whose cached handle reports
`PROCESSING`, the entry is evicted but the size check rejects the file
before any upload: zero upload calls are performed, not one. -/
theorem upload_cache_claim_counterexample :
    _upload_single_file [("k", "h")] "k" (fun _ => GetFileResult.ok FileState.PROCESSING)
      false (some "application/pdf") (UploadCallResult.ok "h2") =
      (none, [], 0) := by
  decide

/-- C5 (amended). For every file whose cache key maps to a non-empty
handle whose remote artifact is confirmed `ACTIVE`, the upload operation
performs zero remote upload calls, returns the cached handle, and leaves
the cache unchanged — regardless of the file's size or MIME type.  If the
cached handle is not confirmed usable (non-`ACTIVE` state or lookup
error), the entry is deleted from the cache and, provided the file passes
the size and MIME-type checks, exactly one re-upload call is performed. -/
theorem upload_cache_correct (cache : List (String × String)) (k id : String)
    (get_file : String → GetFileResult) (size_within_limit : Bool)
    (mime : Option String) (m : String) (upload_file : UploadCallResult)
    (hlk : cacheLookup cache k = some id) (hid : id ≠ "") :
    (get_file id = .ok .ACTIVE →
       _upload_single_file cache k get_file size_within_limit mime upload_file =
         (some id, cache, 0)) ∧
    (get_file id ≠ .ok .ACTIVE →
       (_upload_single_file cache k get_file true (some m) upload_file).2.2 = 1 ∧
       (_upload_single_file cache k get_file true (some m) upload_file).2.1 =
         cacheDelete cache k ∧
       cacheLookup
         ((_upload_single_file cache k get_file true (some m) upload_file).2.1) k =
         none) := by
  constructor
  · intro hact
    unfold _upload_single_file
    rw [hlk]
    simp only [if_pos hid, hact]
  · intro hnact
    have hmiss : ∀ c : List (String × String),
        (uploadAfterCacheMiss c true (some m) upload_file).2.2 = 1 ∧
        (uploadAfterCacheMiss c true (some m) upload_file).2.1 = c := by
      intro c
      unfold uploadAfterCacheMiss
      rcases upload_file with h | e <;> exact ⟨rfl, rfl⟩
    have hstep : _upload_single_file cache k get_file true (some m) upload_file =
        uploadAfterCacheMiss (cacheDelete cache k) true (some m) upload_file := by
      unfold _upload_single_file
      rw [hlk]
      simp only [if_pos hid]
      rcases hg : get_file id with st | e
      · rcases st with _ | _ | _
        · exact absurd hg hnact
        · rfl
        · rfl
      · rfl
    rw [hstep]
    refine ⟨(hmiss _).1, (hmiss _).2, ?_⟩
    rw [(hmiss _).2]
    exact cacheLookup_cacheDelete cache k

/-- C5 (witness). A concrete `ACTIVE` cache hit performs no upload call;
a concrete stale (`PROCESSING`) hit evicts the entry and performs exactly
one upload call. -/
theorem upload_cache_correct_witness :
    _upload_single_file [("k", "h")] "k" (fun _ => GetFileResult.ok FileState.ACTIVE)
      true (some "application/pdf") (UploadCallResult.ok "h2") =
      (some "h", [("k", "h")], 0) ∧
    (_upload_single_file [("k", "h")] "k"
      (fun _ => GetFileResult.ok FileState.PROCESSING)
      true (some "application/pdf") (UploadCallResult.ok "h2")).2.2 = 1 :=
  ⟨(upload_cache_correct [("k", "h")] "k" "h"
      (fun _ => GetFileResult.ok FileState.ACTIVE)
      true (some "application/pdf") "application/pdf" (UploadCallResult.ok "h2")
      rfl (by decide)).1 rfl,
   ((upload_cache_correct [("k", "h")] "k" "h"
      (fun _ => GetFileResult.ok FileState.PROCESSING)
      true (some "application/pdf") "application/pdf" (UploadCallResult.ok "h2")
      rfl (by decide)).2 (by decide)).1⟩

/-! ## `crawl_website` and `fetch_website_content`
(src/security_questionnaire_responder.py:620-727)

URLs are abstracted as natural numbers.  `G u` is the set of same-domain,
normalized links that `get_links_from_page` extracts from page `u` (an
arbitrary finite link graph, possibly cyclic); `canFetch` is the robots
verdict `rp.can_fetch("*", url)`.  Python's `set.pop()` removes an
arbitrary element, so the element choice is a parameter `choose`,
constrained only to pick a member of the frontier; every theorem holds
for every such choice function.  The loop state carries the `to_visit`
frontier, the `visited` and `all_urls` sets, and — as instrumentation of
the network effect — the ordered list of URLs passed to
`get_links_from_page`, i.e. the pages actually fetched by the crawl. -/

structure CrawlState where
  toVisit : Finset ℕ
  visited : Finset ℕ
  allUrls : Finset ℕ
  fetched : List ℕ
deriving DecidableEq

/-- One iteration of the `while to_visit and len(visited) < max_pages`
loop of `crawl_website`; `none` when the loop guard fails. -/
def crawlStep (G : ℕ → Finset ℕ) (canFetch : ℕ → Bool)
    (choose : (s : Finset ℕ) → s.Nonempty → {x // x ∈ s})
    (max_pages : ℕ) (s : CrawlState) : Option CrawlState :=
  if h : s.toVisit.Nonempty ∧ s.visited.card < max_pages then
    let c := choose s.toVisit h.1
    if c.1 ∈ s.visited then
      some { s with toVisit := s.toVisit.erase c.1 }
    else if ¬ canFetch c.1 then
      some { s with toVisit := s.toVisit.erase c.1 }
    else
      some { toVisit := (s.toVisit.erase c.1) ∪ (G c.1 \ insert c.1 s.visited),
             visited := insert c.1 s.visited,
             allUrls := insert c.1 s.allUrls,
             fetched := s.fetched ++ [c.1] }
  else none

theorem crawlStep_measure (G : ℕ → Finset ℕ) (canFetch : ℕ → Bool)
    (choose : (s : Finset ℕ) → s.Nonempty → {x // x ∈ s})
    (max_pages : ℕ) (s s' : CrawlState)
    (h : crawlStep G canFetch choose max_pages s = some s') :
    Prod.Lex (· < ·) (· < ·)
      (max_pages - s'.visited.card, s'.toVisit.card)
      (max_pages - s.visited.card, s.toVisit.card) := by
  unfold crawlStep at h
  split at h
  case isFalse => exact absurd h (by simp)
  case isTrue hg =>
    set c := choose s.toVisit hg.1 with hc
    by_cases h1 : c.1 ∈ s.visited
    · rw [if_pos h1] at h
      rw [← Option.some.inj h]
      exact Prod.Lex.right _ (Finset.card_erase_lt_of_mem c.2)
    · rw [if_neg h1] at h
      by_cases h2 : ¬ canFetch c.1
      · rw [if_pos h2] at h
        rw [← Option.some.inj h]
        exact Prod.Lex.right _ (Finset.card_erase_lt_of_mem c.2)
      · rw [if_neg h2] at h
        rw [← Option.some.inj h]
        refine Prod.Lex.left _ _ ?_
        have hcard : (insert c.1 s.visited).card = s.visited.card + 1 :=
          Finset.card_insert_of_not_mem h1
        simp only [hcard]
        exact Nat.sub_lt_sub_left hg.2 (Nat.lt_succ_self _)

def crawlLoop (G : ℕ → Finset ℕ) (canFetch : ℕ → Bool)
    (choose : (s : Finset ℕ) → s.Nonempty → {x // x ∈ s})
    (max_pages : ℕ) (s : CrawlState) : CrawlState :=
  match hstep : crawlStep G canFetch choose max_pages s with
  | none => s
  | some s' => crawlLoop G canFetch choose max_pages s'
termination_by (max_pages - s.visited.card, s.toVisit.card)
decreasing_by exact crawlStep_measure G canFetch choose max_pages s s' hstep

/-- `crawl_website`: the robots check on the start URL, then the crawl
loop from the frontier `{start_url}`.  Returns the collected `all_urls`
set and the fetch trace.  The `except` path that proceeds when
`robots.txt` itself cannot be fetched is outside the claims and is not
modelled: `canFetch` is the resolved robots verdict. -/
def crawl_website (G : ℕ → Finset ℕ) (canFetch : ℕ → Bool)
    (choose : (s : Finset ℕ) → s.Nonempty → {x // x ∈ s})
    (start_url max_pages : ℕ) : Finset ℕ × List ℕ :=
  if ¬ canFetch start_url then (∅, [])
  else
    let final := crawlLoop G canFetch choose max_pages
      ⟨{start_url}, ∅, ∅, []⟩
    (final.allUrls, final.fetched)

/-- The `urls_to_fetch` list that `fetch_website_content` then fetches one
by one: the crawl result when crawling is enabled, with a fallback to the
single provided URL when the crawl returns no pages. -/
def fetch_website_content_urls (G : ℕ → Finset ℕ) (canFetch : ℕ → Bool)
    (choose : (s : Finset ℕ) → s.Nonempty → {x // x ∈ s})
    (url : ℕ) (crawl : Bool) (max_pages : ℕ) : List ℕ :=
  if crawl then
    if (crawl_website G canFetch choose url max_pages).1 = ∅ then [url]
    else ((crawl_website G canFetch choose url max_pages).1).sort (· ≤ ·)
  else [url]

def chooseMin : (s : Finset ℕ) → s.Nonempty → {x // x ∈ s} :=
  fun s h => ⟨s.min' h, s.min'_mem h⟩

theorem crawlLoop_eq_of_none (G : ℕ → Finset ℕ) (canFetch : ℕ → Bool)
    (choose : (s : Finset ℕ) → s.Nonempty → {x // x ∈ s})
    (max_pages : ℕ) (s : CrawlState)
    (h : crawlStep G canFetch choose max_pages s = none) :
    crawlLoop G canFetch choose max_pages s = s := by
  rw [crawlLoop]
  split
  · rfl
  · next s' h' =>
    rw [h] at h'
    exact absurd h' (by simp)

theorem crawlLoop_eq_of_some (G : ℕ → Finset ℕ) (canFetch : ℕ → Bool)
    (choose : (s : Finset ℕ) → s.Nonempty → {x // x ∈ s})
    (max_pages : ℕ) (s s' : CrawlState)
    (h : crawlStep G canFetch choose max_pages s = some s') :
    crawlLoop G canFetch choose max_pages s =
      crawlLoop G canFetch choose max_pages s' := by
  rw [crawlLoop]
  split
  · next h' =>
    rw [h] at h'
    exact absurd h' (by simp)
  · next s'' h'' =>
    rw [h] at h''
    rw [Option.some.inj h'']

theorem crawlStep_preserves (G : ℕ → Finset ℕ) (canFetch : ℕ → Bool)
    (choose : (s : Finset ℕ) → s.Nonempty → {x // x ∈ s})
    (max_pages : ℕ) (s s' : CrawlState)
    (h : crawlStep G canFetch choose max_pages s = some s')
    (h1 : s.allUrls ⊆ s.visited) (h2 : s.fetched.length ≤ s.visited.card)
    (h3 : s.visited.card ≤ max_pages) :
    s'.allUrls ⊆ s'.visited ∧ s'.fetched.length ≤ s'.visited.card ∧
    s'.visited.card ≤ max_pages := by
  unfold crawlStep at h
  split at h
  case isFalse => exact absurd h (by simp)
  case isTrue hg =>
    set c := choose s.toVisit hg.1 with hc
    by_cases hv : c.1 ∈ s.visited
    · rw [if_pos hv] at h
      rw [← Option.some.inj h]
      exact ⟨h1, h2, h3⟩
    · rw [if_neg hv] at h
      by_cases hcf : ¬ canFetch c.1
      · rw [if_pos hcf] at h
        rw [← Option.some.inj h]
        exact ⟨h1, h2, h3⟩
      · rw [if_neg hcf] at h
        rw [← Option.some.inj h]
        refine ⟨Finset.insert_subset_insert _ h1, ?_, ?_⟩
        · rw [List.length_append, Finset.card_insert_of_not_mem hv]
          simp only [List.length_singleton]
          omega
        · rw [Finset.card_insert_of_not_mem hv]
          omega

theorem crawlLoop_bound (G : ℕ → Finset ℕ) (canFetch : ℕ → Bool)
    (choose : (s : Finset ℕ) → s.Nonempty → {x // x ∈ s})
    (max_pages : ℕ) (s : CrawlState) :
    s.allUrls ⊆ s.visited → s.fetched.length ≤ s.visited.card →
    s.visited.card ≤ max_pages →
    (crawlLoop G canFetch choose max_pages s).allUrls.card ≤ max_pages ∧
    (crawlLoop G canFetch choose max_pages s).fetched.length ≤ max_pages := by
  induction s using crawlLoop.induct G canFetch choose max_pages with
  | case1 s hnone =>
    intro h1 h2 h3
    rw [crawlLoop_eq_of_none G canFetch choose max_pages s hnone]
    exact ⟨le_trans (Finset.card_le_card h1) h3, le_trans h2 h3⟩
  | case2 s s' hsome ih =>
    intro h1 h2 h3
    rw [crawlLoop_eq_of_some G canFetch choose max_pages s s' hsome]
    obtain ⟨h1', h2', h3'⟩ :=
      crawlStep_preserves G canFetch choose max_pages s s' hsome h1 h2 h3
    exact ih h1' h2' h3'

/-- C6. For every link graph `G` (cycles included), every robots verdict,
every frontier-choice function, every start URL and every page budget
`max_pages`, the crawl terminates (`crawl_website` is a total function,
proved by well-founded recursion on the budget left and the frontier
size) and returns at most `max_pages` distinct pages, having fetched at
most `max_pages` pages; the loop halts when the frontier is exhausted or
`max_pages` pages have been visited, whichever comes first (this guard is
the dite condition of `crawlStep`). -/
theorem crawl_website_bounded (G : ℕ → Finset ℕ) (canFetch : ℕ → Bool)
    (choose : (s : Finset ℕ) → s.Nonempty → {x // x ∈ s})
    (start_url max_pages : ℕ) :
    (crawl_website G canFetch choose start_url max_pages).1.card ≤ max_pages ∧
    (crawl_website G canFetch choose start_url max_pages).2.length ≤ max_pages := by
  unfold crawl_website
  by_cases hr : ¬ canFetch start_url
  · rw [if_pos hr]
    exact ⟨by simp, by simp⟩
  · rw [if_neg hr]
    exact crawlLoop_bound G canFetch choose max_pages ⟨{start_url}, ∅, ∅, []⟩
      (by simp) (by simp) (by simp)

/-- C8. The frontier invariant of the crawl loop: a step of the loop
preserves disjointness of `to_visit` and `visited`; the visited set only
grows; the URL visited in a step (if any) came from the frontier and is
unique; and a URL already visited never re-enters the frontier.  Together
with the initial state `to_visit = {start_url}, visited = ∅` of
`crawl_website` — disjoint by construction — this gives
`to_visit ∩ visited = ∅` at every step of every crawl, and each URL moves
from `to_visit` to `visited` at most once, in the same loop iteration
that processes it. -/
theorem crawl_frontier_invariant (G : ℕ → Finset ℕ) (canFetch : ℕ → Bool)
    (choose : (s : Finset ℕ) → s.Nonempty → {x // x ∈ s})
    (max_pages : ℕ) (s s' : CrawlState)
    (hdisj : s.toVisit ∩ s.visited = ∅)
    (hstep : crawlStep G canFetch choose max_pages s = some s') :
    s'.toVisit ∩ s'.visited = ∅ ∧
    s.visited ⊆ s'.visited ∧
    s'.visited \ s.visited ⊆ s.toVisit ∧
    (s'.visited \ s.visited).card ≤ 1 ∧
    (∀ u ∈ s.visited, u ∉ s'.toVisit) := by
  have hdisj' : ∀ u, u ∈ s.toVisit → u ∉ s.visited := by
    intro u hu hv
    have : u ∈ s.toVisit ∩ s.visited := Finset.mem_inter.2 ⟨hu, hv⟩
    rw [hdisj] at this
    exact absurd this (Finset.not_mem_empty u)
  unfold crawlStep at hstep
  split at hstep
  case isFalse => exact absurd hstep (by simp)
  case isTrue hg =>
    set c := choose s.toVisit hg.1 with hc
    by_cases hv : c.1 ∈ s.visited
    · rw [if_pos hv] at hstep
      rw [← Option.some.inj hstep]
      refine ⟨?_, Finset.Subset.refl _, by simp, by simp, ?_⟩
      · rw [Finset.eq_empty_iff_forall_not_mem]
        intro u hu
        rw [Finset.mem_inter, Finset.mem_erase] at hu
        exact hdisj' u hu.1.2 hu.2
      · intro u hu
        rw [Finset.mem_erase]
        rintro ⟨-, hu2⟩
        exact hdisj' u hu2 hu
    · rw [if_neg hv] at hstep
      by_cases hcf : ¬ canFetch c.1
      · rw [if_pos hcf] at hstep
        rw [← Option.some.inj hstep]
        refine ⟨?_, Finset.Subset.refl _, by simp, by simp, ?_⟩
        · rw [Finset.eq_empty_iff_forall_not_mem]
          intro u hu
          rw [Finset.mem_inter, Finset.mem_erase] at hu
          exact hdisj' u hu.1.2 hu.2
        · intro u hu
          rw [Finset.mem_erase]
          rintro ⟨-, hu2⟩
          exact hdisj' u hu2 hu
      · rw [if_neg hcf] at hstep
        rw [← Option.some.inj hstep]
        refine ⟨?_, Finset.subset_insert _ _, ?_, ?_, ?_⟩
        · rw [Finset.eq_empty_iff_forall_not_mem]
          intro u hu
          rw [Finset.mem_inter, Finset.mem_union, Finset.mem_erase,
            Finset.mem_sdiff] at hu
          rcases hu.1 with ⟨hne, htv⟩ | ⟨-, hnin⟩
          · rcases Finset.mem_insert.1 hu.2 with heq | hvis
            · exact hne heq
            · exact hdisj' u htv hvis
          · exact hnin hu.2
        · intro u hu
          rw [Finset.mem_sdiff, Finset.mem_insert] at hu
          rcases hu.1 with heq | hvis
          · rw [heq]
            exact c.2
          · exact absurd hvis hu.2
        · have hsub : (insert c.1 s.visited) \ s.visited ⊆ {c.1} := by
            intro u hu
            rw [Finset.mem_sdiff, Finset.mem_insert] at hu
            rcases hu.1 with heq | hvis
            · rw [heq]
              exact Finset.mem_singleton_self c.1
            · exact absurd hvis hu.2
          simpa using Finset.card_le_card hsub
        · intro u hu
          rw [Finset.mem_union, Finset.mem_erase, Finset.mem_sdiff]
          rintro (⟨-, htv⟩ | ⟨-, hnin⟩)
          · exact hdisj' u htv hu
          · exact hnin (Finset.mem_insert_of_mem hu)

/-- C8 (witness). One concrete step from the initial frontier `{0}` with
link graph `G 0 = {1, 2}`: the invariant facts instantiated by the
theorem. -/
theorem crawl_frontier_invariant_witness :
    ({1, 2} : Finset ℕ) ∩ {0} = ∅ ∧
    (∅ : Finset ℕ) ⊆ {0} ∧
    ({0} : Finset ℕ) \ ∅ ⊆ {0} ∧
    (({0} : Finset ℕ) \ ∅).card ≤ 1 ∧
    (∀ u ∈ (∅ : Finset ℕ), u ∉ ({1, 2} : Finset ℕ)) :=
  crawl_frontier_invariant (fun _ => {1, 2}) (fun _ => true) chooseMin 5
    ⟨{0}, ∅, ∅, []⟩ ⟨{1, 2}, {0}, {0}, [0]⟩ (by decide) (by decide)

/-- C7 (counterexample). A start URL disallowed by robots does yield an
empty crawl result with an empty crawl fetch trace, but the claim's
second half — zero page-fetch attempts for the site including the
companion content-extraction step — is false: when the crawl comes back
empty, `fetch_website_content` falls back to
`urls_to_fetch = [url]` ("No pages found to crawl, using only the
provided URL", src/security_questionnaire_responder.py:676-678) and
attempts one fetch of the start URL. -/
theorem robots_zero_fetch_counterexample :
    crawl_website (fun _ => ∅) (fun _ => false) chooseMin 0 5 = (∅, []) ∧
    fetch_website_content_urls (fun _ => ∅) (fun _ => false) chooseMin 0 true 5 = [0] := by
  constructor
  · decide
  · decide

/-- C7 (amended). For every start URL that the site's robots directives
disallow for the wildcard agent, the crawl returns an empty result before
any page fetch and makes zero page-fetch attempts itself (its fetch trace
is empty); the companion content-extraction step, however, falls back to
the provided URL and attempts exactly one fetch, of the start URL
itself. -/
theorem robots_disallowed_empty_crawl (G : ℕ → Finset ℕ)
    (choose : (s : Finset ℕ) → s.Nonempty → {x // x ∈ s})
    (start_url max_pages : ℕ) (canFetch : ℕ → Bool)
    (h : canFetch start_url = false) :
    crawl_website G canFetch choose start_url max_pages = (∅, []) ∧
    fetch_website_content_urls G canFetch choose start_url true max_pages =
      [start_url] := by
  have hcw : crawl_website G canFetch choose start_url max_pages = (∅, []) := by
    unfold crawl_website
    rw [if_pos]
    simp [h]
  refine ⟨hcw, ?_⟩
  simp [fetch_website_content_urls, hcw]

/-- C7 (witness). A concrete robots verdict that denies URL 0: the crawl
is empty with no fetches, and the extraction step's fetch list is exactly
the start URL. -/
theorem robots_disallowed_empty_crawl_witness :
    crawl_website (fun _ => {1}) (fun u => u != 0) chooseMin 0 3 = (∅, []) ∧
    fetch_website_content_urls (fun _ => {1}) (fun u => u != 0) chooseMin 0 true 3 =
      [0] :=
  robots_disallowed_empty_crawl (fun _ => {1}) chooseMin 0 3 (fun u => u != 0) rfl

/-! ## Result writer with write verification

`_column_index_to_letter` (src/security_questionnaire_responder.py:985-992)
is the genuine A1-address helper from the source.  The write-verification
logic itself is modelled from the spec (see the doc comment on
`result_writer_write`). -/

/-- The `while n > 0` loop of `_column_index_to_letter`, with an explicit
fuel argument for structural recursion (the loop variable strictly
decreases, so fuel equal to the initial `n` always suffices). -/
def _col_letter_go : ℕ → ℕ → List Char → List Char
  | 0, _, result => result
  | fuel + 1, n, result =>
    if n > 0 then
      _col_letter_go fuel ((n - 1) / 26) (Char.ofNat (65 + (n - 1) % 26) :: result)
    else result

def _column_index_to_letter (index_one_based : ℕ) : String :=
  ⟨_col_letter_go index_one_based index_one_based []⟩

inductive WriteOp where
  | cell (row col : ℕ) (value : String)
  | range (a1 : String) (value : String)
deriving DecidableEq

def isRangeWrite : WriteOp → Bool
  | .cell _ _ _ => false
  | .range _ _ => true

/-- Modelled from the spec: the Result Writer's write-verification
read-back and range-address fallback (spec section 4.7 and the
write-verification testable property) are not implemented in the files
under src/ — only the `VERIFY_WRITES` configuration flag is declared
(src/security_questionnaire_responder.py:84 and src/config.py), and
`update_cell_with_retry` performs the plain row/column write.  Per the
spec: the write goes through the shared retry policy; when verification
is enabled a read-back is performed, and an empty read-back after a
reported-successful write triggers one fallback write using an absolute
cell-range (A1) address rather than a row/column handle.  The function
returns the list of write operations issued for one verdict, given that
the primary write reported success and that the read-back returned
`read_back`. -/
def result_writer_write (verify_writes : Bool) (row col : ℕ) (value : String)
    (read_back : String) : List WriteOp :=
  WriteOp.cell row col value ::
    (if verify_writes then
       if read_back = "" then
         [WriteOp.range (_column_index_to_letter col ++ toString row) value]
       else []
     else [])

/-- C4 (spec-modelled). With write verification enabled, a write whose
read-back returns empty despite the write reporting success triggers
exactly one fallback write addressed by an absolute cell-range (A1)
address; a non-empty read-back, or verification disabled, triggers no
fallback write. -/
theorem write_verification_fallback (row col : ℕ) (value read_back : String) :
    (read_back = "" →
       result_writer_write true row col value read_back =
         [WriteOp.cell row col value,
          WriteOp.range (_column_index_to_letter col ++ toString row) value] ∧
       (result_writer_write true row col value read_back).countP isRangeWrite = 1) ∧
    (read_back ≠ "" →
       result_writer_write true row col value read_back =
         [WriteOp.cell row col value]) ∧
    result_writer_write false row col value read_back =
      [WriteOp.cell row col value] := by
  refine ⟨?_, ?_, ?_⟩
  · intro hrb
    rw [result_writer_write, if_pos rfl, if_pos hrb]
    exact ⟨rfl, by simp [List.countP_cons, isRangeWrite]⟩
  · intro hrb
    rw [result_writer_write, if_pos rfl, if_neg hrb]
  · rw [result_writer_write, if_neg (by simp)]

/-- C4 (witness). Writing to row 2, column 3 with an empty read-back
issues the primary cell write plus exactly one range write addressed
`C2`; a non-empty read-back issues no fallback. -/
theorem write_verification_fallback_witness :
    result_writer_write true 2 3 "v" "" =
      [WriteOp.cell 2 3 "v", WriteOp.range "C2" "v"] ∧
    result_writer_write true 2 3 "v" "x" = [WriteOp.cell 2 3 "v"] :=
  ⟨(((write_verification_fallback 2 3 "v" "").1 rfl).1).trans (by decide),
   (write_verification_fallback 2 3 "v" "x").2.1 (by decide)⟩

end SQR
